import Mathlib

/-!
Verification of the spatial overlay and classification pipeline of
`scriptsToGenerateInputs/2.ProbabilityPrescriptionsMatrixFromQuebecData/3.ComputeFrequencyCutsPerForestTypeMatrix.py`.

Geometry is treated as an abstract external engine (as the spec's design notes
require): a geometry is reduced to the data the script observes about it —
whether it is a single polygon, a multi-polygon (with the areas of its parts),
empty, or some other (non-polygonal) geometry.  Machine floats are modelled as
exact rationals; the two `.round(n)` calls of the script are modelled with
round-half-up on rationals (the script's numpy rounding is half-to-even; no
statement below is evaluated at a half-way tie, and only the bound
`|round x - x| <= 1/2` is used in proofs, which holds for either convention).
-/

/-- Abstract geometry as observed by the script: a single polygon carrying its
area, a multi-polygon carrying the areas of its parts, the empty geometry, or a
non-polygonal geometry (line, point, collection...). -/
inductive Geom where
  | empty : Geom
  | poly (a : ℚ) : Geom
  | multi (parts : List ℚ) : Geom
  | other : Geom
deriving DecidableEq, Repr

/-- `shapely.area`: the area of a geometry.  Non-polygonal and empty
geometries have area 0. -/
def garea : Geom → ℚ
  | .empty => 0
  | .poly a => a
  | .multi parts => parts.sum
  | .other => 0

/-- `extract_polygons` (script lines 68-75): a MultiPolygon yields the list of
its member polygons, a Polygon yields itself, anything else yields `[]`.
A single polygon is identified with its area. -/
def extract_polygons : Geom → List ℚ
  | .multi parts => parts
  | .poly a => [a]
  | _ => []

/-- `age_classes` (script line 50). -/
def age_classes : List String :=
  ["10", "20", "30", "40", "50", "60", "70", "80", "90", "100", "110", "120", "130", "140"]

/-- `reclassify_cl_age` (script lines 52-57): a non-null code in
`age_classes` maps to `Even`, any other non-null code to `Uneven`,
null to null. -/
def reclassify_cl_age : Option String → Option String
  | none => none
  | some s => if s ∈ age_classes then some "Even" else some "Uneven"

/-- `classify_shade_tolerance` (script lines 59-66).  The tolerance table maps
a 2-character species code to the optional `tolerance_ombre` field of its JSON
entry (`none` models an entry without that field, so that
`entry.get('tolerance_ombre', 'Unknown')` is `Option.getD entry "Unknown"`). -/
def classify_shade_tolerance (tbl : List (String × Option String)) :
    Option String → Option String
  | none => none
  | some s =>
      let species_code := s.take 2
      match List.lookup species_code tbl with
      | some entry =>
          let tolerance := entry.getD "Unknown"
          some (if tolerance = "Tolérant" then "Tol"
                else if tolerance = "Intolérant" then "Intol" else "Unknown")
      | none => some "Unknown"

/-- Script line 222: `row['PERTURB'] if pd.notna(row['PERTURB']) else row['ORIGINE']`. -/
def chooseCut : Option String → Option String → Option String
  | some s, _ => some s
  | none, o => o

/-- `reclassify_cuttype` (script lines 227-233).  The cut-category table maps a
raw code to the optional `english_category` field of its JSON entry, so that
`cut_categories[c].get('english_category', c)` is `Option.getD entry c`. -/
def reclassify_cuttype (cats : List (String × Option String)) :
    Option String → Option String
  | none => none
  | some s =>
      match List.lookup s cats with
      | some entry => some (entry.getD s)
      | none => some s

/-- Steps 5-6 combined: the final CUTTYPE value of a row from its PERTURB and
ORIGINE codes. -/
def cuttypeFinal (cats : List (String × Option String))
    (perturb origine : Option String) : Option String :=
  reclassify_cuttype cats (chooseCut perturb origine)

/-- One row of the intervention layer (columns read at script lines 35-36). -/
structure IntervRow where
  geom : Geom
  exercice : Option String
  origine : Option String
  an_origine : Option String
  perturb : Option String
  an_perturb : Option String
  reb_ess1 : Option String
  reb_ess2 : Option String
  reb_ess3 : Option String
deriving DecidableEq, Repr

/-- One feature of the forest-inventory layer (script lines 138-143). -/
structure InvFeature where
  geom : Geom
  cl_age : Option String
  gr_ess : Option String
  co_ter : Option String
deriving DecidableEq, Repr

/-- One record of the persisted output dataset (`feature_out`, script lines
170-185, plus the AREACUT and CUTTYPE columns added by Steps 4-6 before the
final save).  `cl_age` and `gr_ess` hold the already reclassified values, as
in the script. -/
structure Record where
  exercice : Option String
  origine : Option String
  an_origine : Option String
  perturb : Option String
  an_perturb : Option String
  reb_ess1 : Option String
  reb_ess2 : Option String
  reb_ess3 : Option String
  cl_age : Option String
  gr_ess : Option String
  co_ter : Option String
  fragGeom : Geom
  areacut : Option ℚ := none
  cuttype : Option (Option String) := none
deriving DecidableEq, Repr

/-- `BUFFER_SIZE` (script line 19). -/
def BUFFER_SIZE : Nat := 5000

/-- In-flight state of the buffered writer in the Step 3 loop: the in-memory
`buffer`, the `count` of written fragments, and `dst`, the records already
appended to the persisted dataset. -/
structure WriterState where
  buffer : List Record
  count : Nat
  dst : List Record
deriving DecidableEq, Repr

/-- Script lines 186-192: append a record to the buffer, increment `count`,
and flush the buffer to the persisted dataset when it reaches `BUFFER_SIZE`. -/
def writerPush (st : WriterState) (r : Record) : WriterState :=
  let buf := st.buffer ++ [r]
  let c := st.count + 1
  if BUFFER_SIZE ≤ buf.length then ⟨[], c, st.dst ++ buf⟩ else ⟨buf, c, st.dst⟩

/-- Script lines 194-196: at end of run the remaining buffer is flushed; the
persisted dataset is everything appended so far plus that final flush. -/
def finalFlush (st : WriterState) : List Record :=
  st.dst ++ st.buffer

/-- `mkRecord` builds `feature_out` (script lines 170-185): all intervention
attributes verbatim, the inventory feature's reclassified age class and shade
tolerance and its terrain code, and the constituent polygon as geometry. -/
def mkRecord (tbl : List (String × Option String)) (f : InvFeature)
    (row : IntervRow) (a : ℚ) : Record :=
  { exercice := row.exercice
    origine := row.origine
    an_origine := row.an_origine
    perturb := row.perturb
    an_perturb := row.an_perturb
    reb_ess1 := row.reb_ess1
    reb_ess2 := row.reb_ess2
    reb_ess3 := row.reb_ess3
    cl_age := reclassify_cl_age f.cl_age
    gr_ess := classify_shade_tolerance tbl f.gr_ess
    co_ter := f.co_ter
    fragGeom := Geom.poly a }

/-- The external collaborators of the overlay loop: the intervention rows, the
shade-tolerance table, the spatial index `query` (STRtree, script line 148)
and the exact-intersection operation `inter` of the geometry engine
(script line 155). -/
structure OverlayCtx (n : Nat) where
  interv : Fin n → IntervRow
  shadeTbl : List (String × Option String)
  query : Geom → List (Fin n)
  inter : Geom → Geom → Geom

/-- Script lines 153-192, body of `for interv_idx in potential_idx`: compute
the exact intersection; skip it if empty or of area < 1; otherwise explode it
and push each constituent polygon of area ≥ 1. -/
def processCandidate {n : Nat} (C : OverlayCtx n) (f : InvFeature)
    (st : WriterState) (i : Fin n) : WriterState :=
  let ig := C.inter f.geom (C.interv i).geom
  if ig = Geom.empty ∨ garea ig < 1 then st
  else
    (extract_polygons ig).foldl
      (fun s a => if a < 1 then s else writerPush s (mkRecord C.shadeTbl f (C.interv i) a)) st

/-- Script lines 137-192, body of `for feature in src`: query the spatial
index and process every candidate (an empty candidate list means `continue`). -/
def processFeature {n : Nat} (C : OverlayCtx n) (st : WriterState)
    (f : InvFeature) : WriterState :=
  let idxs := C.query f.geom
  if idxs.length = 0 then st else idxs.foldl (processCandidate C f) st

/-- The whole Step 3 overlay loop over the stream of inventory features,
starting from an empty buffer, zero count and empty output file. -/
def runOverlay {n : Nat} (C : OverlayCtx n) (feats : List InvFeature) : WriterState :=
  feats.foldl (processFeature C) ⟨[], 0, []⟩

/-- The content of the persisted output dataset after the Step 3 loop and the
final buffer flush. -/
def overlayOutput {n : Nat} (C : OverlayCtx n) (feats : List InvFeature) : List Record :=
  finalFlush (runOverlay C feats)

/-- The fragments one candidate intervention contributes, as a list (the same
records `processCandidate` pushes, in push order). -/
def candFrags {n : Nat} (C : OverlayCtx n) (f : InvFeature) (i : Fin n) : List Record :=
  let ig := C.inter f.geom (C.interv i).geom
  if ig = Geom.empty ∨ garea ig < 1 then []
  else ((extract_polygons ig).filter (fun a => decide (¬ a < 1))).map
    (mkRecord C.shadeTbl f (C.interv i))

/-- The fragments one inventory feature contributes, in push order. -/
def featureFrags {n : Nat} (C : OverlayCtx n) (f : InvFeature) : List Record :=
  (C.query f.geom).flatMap (candFrags C f)

/-- All accepted fragments of a run, in acceptance order. -/
def acceptedFrags {n : Nat} (C : OverlayCtx n) (feats : List InvFeature) : List Record :=
  feats.flatMap (featureFrags C)

/-- Step 4 (script line 216): the AREACUT value of a record is the area of its
geometry. -/
def areacutOf (r : Record) : ℚ := garea r.fragGeom

/-- Steps 4-6 (script lines 216-235) as a per-record transformation: set the
AREACUT column to the geometry's area and the CUTTYPE column to the
reclassified PERTURB-else-ORIGINE code. -/
def enrich (cats : List (String × Option String)) (r : Record) : Record :=
  { r with areacut := some (garea r.fragGeom)
           cuttype := some (cuttypeFinal cats r.perturb r.origine) }

/-- Outcome of probing the persisted output dataset at the start of a run
(script lines 78-102): no file, a file that fails to open or parse, or a file
that reads back as a dataset. -/
inductive Checkpoint where
  | missing : Checkpoint
  | corrupt : Checkpoint
  | valid (ds : List Record) : Checkpoint
deriving DecidableEq, Repr

/-- Script lines 96-100: a file that fails to read is deleted
(`Path(clipped_gpkg).unlink()`), leaving the run in the same situation as a
missing file; the exception is caught, so the recovery is non-fatal. -/
def validateCheckpoint : Checkpoint → Checkpoint
  | .corrupt => .missing
  | c => c

/-- Step 3 dispatch (script lines 78-104): a valid checkpoint is used as-is
and the overlay is skipped (`false`); otherwise the fresh overlay result is
used (`true` = overlay ran).  `fresh` stands for the records the Step 3 loop
writes and reads back. -/
def step3Result : Checkpoint → List Record → List Record × Bool
  | .valid ds, _ => (ds, false)
  | .missing, fresh => (fresh, true)
  | .corrupt, fresh => (fresh, true)

/-- One run of the pipeline through the final save (script line 239): probe
and validate the checkpoint, run or skip the overlay, then apply Steps 4-6
and persist.  Returns the persisted dataset and whether the overlay ran. -/
def pipelineRun (cats : List (String × Option String)) (chk : Checkpoint)
    (fresh : List Record) : List Record × Bool :=
  let s := step3Result (validateCheckpoint chk) fresh
  (s.1.map (enrich cats), s.2)

/-- `classify_forest_type` (script lines 244-259), reading the already
reclassified CL_AGE and GR_ESS columns. -/
def classify_forest_type (cl_age gr_ess : Option String) : String :=
  if cl_age = none ∨ gr_ess = some "Unknown" ∨ gr_ess = none then "Unknown/Unclassified"
  else if cl_age = some "Even" ∧ gr_ess = some "Tol" then "Even/Tol"
  else if cl_age = some "Uneven" ∧ gr_ess = some "Tol" then "Uneven/Tol"
  else if cl_age = some "Even" ∧ gr_ess = some "Intol" then "Even/Intol"
  else if cl_age = some "Uneven" ∧ gr_ess = some "Intol" then "Uneven/Intol"
  else "Unknown/Unclassified"

/-- The CUTTYPE column value of a row, as recomputed by Steps 5-6. -/
def cuttypeCol (cats : List (String × Option String)) (r : Record) : Option String :=
  cuttypeFinal cats r.perturb r.origine

/-- The forest type of a row (Step 7). -/
def forestTypeCol (r : Record) : String := classify_forest_type r.cl_age r.gr_ess

/-- Script line 265: the grand total area over all rows, null CUTTYPE
included. -/
def total_area (rows : List Record) : ℚ := (rows.map areacutOf).sum

/-- One cell of the groupby matrix (script line 267): the summed AREACUT of
the rows whose CUTTYPE is `some ct` and forest type is `ft`.  Rows with a
null CUTTYPE belong to no group (pandas drops null grouping keys). -/
def cellArea (cats : List (String × Option String)) (rows : List Record)
    (ct ft : String) : ℚ :=
  ((rows.filter (fun r => decide (cuttypeCol cats r = some ct) &&
      decide (forestTypeCol r = ft))).map areacutOf).sum

/-- The row keys of the matrix: the distinct non-null CUTTYPE values (pandas
drops rows with a null grouping key from the groupby result). -/
def rowKeys (cats : List (String × Option String)) (rows : List Record) : List String :=
  (rows.filterMap (cuttypeCol cats)).dedup

/-- `forest_types` (script line 271): the fixed, complete column set. -/
def forest_types : List String :=
  ["Even/Tol", "Uneven/Tol", "Even/Intol", "Uneven/Intol", "Unknown/Unclassified"]

/-- Rounding to 2 decimals (pandas `.round(2)`, script line 268). -/
def round2 (q : ℚ) : ℚ := (round (q * 100) : ℚ) / 100

/-- Rounding to 4 decimals (pandas `.round(4)`, script line 317). -/
def round4 (q : ℚ) : ℚ := (round (q * 10000) : ℚ) / 10000

/-- One cell of the exported percentage matrix `matrix_pct` (script line 268):
the cell area divided by the grand total, times 100, rounded to 2 decimals.
Forest-type columns absent from the groupby result are filled with 0, which
this formula also yields (their cell area is 0). -/
def matrix_pct (cats : List (String × Option String)) (rows : List Record)
    (ct ft : String) : ℚ :=
  round2 (cellArea cats rows ct ft / total_area rows * 100)

/-- Script line 295: Step 9 reconstructs areas from the exported (rounded)
percentage matrix: `matrix = (matrix_pct / 100) * total_area`. -/
def matrixFromPct (cats : List (String × Option String)) (rows : List Record)
    (ct ft : String) : ℚ :=
  matrix_pct cats rows ct ft / 100 * total_area rows

/-- `rows_to_remove` (script line 305). -/
def rows_to_remove : List String := ["Commercial thinning", "Others"]

/-- The row keys surviving the Step 9 row filter. -/
def probRowKeys (cats : List (String × Option String)) (rows : List Record) : List String :=
  (rowKeys cats rows).filter (fun ct => decide (ct ∉ rows_to_remove))

/-- The columns surviving the Step 9 column filter. -/
def probCols : List String := forest_types.filter (fun ft => decide (ft ≠ "Unknown/Unclassified"))

/-- The Step 9 column sum `matrix_filtered.sum(axis=0)` (script line 311). -/
def colSumFiltered (cats : List (String × Option String)) (rows : List Record)
    (ft : String) : ℚ :=
  ((probRowKeys cats rows).map (fun ct => matrixFromPct cats rows ct ft)).sum

/-- pandas cell-by-column-sum division: a zero denominator yields a
missing value (NaN, from 0/0 on the все-zero column). -/
def pandasDiv (x d : ℚ) : Option ℚ := if d = 0 then none else some (x / d)

/-- `.fillna(0)` (script line 314). -/
def fillna0 : Option ℚ → ℚ
  | none => 0
  | some q => q

/-- One cell of the final probability matrix `matrix_prob`
(script lines 311-317). -/
def matrix_prob (cats : List (String × Option String)) (rows : List Record)
    (ct ft : String) : ℚ :=
  round4 (fillna0 (pandasDiv (matrixFromPct cats rows ct ft) (colSumFiltered cats rows ft)))

/-- The probability matrix as the spec's words describe it (for the refinement
comparison of C3): the area matrix with the Unknown/Unclassified column and
the excluded rows removed, each remaining column rescaled to sum to 1, a
zero-sum column becoming all-zero. -/
def specProbMatrix (cats : List (String × Option String)) (rows : List Record)
    (ct ft : String) : ℚ :=
  let s := ((probRowKeys cats rows).map (fun c => cellArea cats rows c ft)).sum
  if s = 0 then 0 else cellArea cats rows ct ft / s

/-- The sum of the cells of the exported percentage matrix: over the CUTTYPE
row keys and the fixed forest-type column set. -/
def pctCellsSum (cats : List (String × Option String)) (rows : List Record) : ℚ :=
  ((rowKeys cats rows).map
    (fun ct => (forest_types.map (fun ft => matrix_pct cats rows ct ft)).sum)).sum

/-- The same sum before the 2-decimal rounding of the percentage matrix. -/
def pctCellsSumRaw (cats : List (String × Option String)) (rows : List Record) : ℚ :=
  ((rowKeys cats rows).map
    (fun ct => (forest_types.map
      (fun ft => cellArea cats rows ct ft / total_area rows * 100)).sum)).sum

/-- The summed AREACUT of the rows with a non-null CUTTYPE. -/
def nonNullArea (cats : List (String × Option String)) (rows : List Record) : ℚ :=
  ((rows.filter (fun r => (cuttypeCol cats r).isSome)).map areacutOf).sum

/-! ### Writer lemmas -/

theorem finalFlush_writerPush (st : WriterState) (r : Record) :
    finalFlush (writerPush st r) = finalFlush st ++ [r] := by
  simp only [writerPush, finalFlush]
  split
  · simp
  · simp

theorem finalFlush_foldl (l : List Record) (st : WriterState) :
    finalFlush (l.foldl writerPush st) = finalFlush st ++ l := by
  induction l generalizing st with
  | nil => simp
  | cons r l ih =>
      rw [List.foldl_cons, ih, finalFlush_writerPush, List.append_assoc]
      rfl

theorem count_writerPush (st : WriterState) (r : Record) :
    (writerPush st r).count = st.count + 1 := by
  simp only [writerPush]
  split <;> rfl

theorem buffer_writerPush_lt (st : WriterState) (r : Record)
    (h : st.buffer.length < BUFFER_SIZE) :
    (writerPush st r).buffer.length < BUFFER_SIZE := by
  simp only [writerPush]
  split
  · simp [BUFFER_SIZE]
  · rename_i hn
    simp only [List.length_append, List.length_singleton] at hn ⊢
    omega

theorem buffer_scanl_lt (l : List Record) (st : WriterState)
    (h : st.buffer.length < BUFFER_SIZE) :
    ∀ s ∈ l.scanl writerPush st, s.buffer.length < BUFFER_SIZE := by
  induction l generalizing st with
  | nil =>
      intro s hs
      simp only [List.scanl_nil, List.mem_singleton] at hs
      exact hs ▸ h
  | cons r l ih =>
      intro s hs
      simp only [List.scanl_cons, List.cons_append, List.nil_append,
        List.mem_cons] at hs
      rcases hs with rfl | hs
      · exact h
      · exact ih (writerPush st r) (buffer_writerPush_lt st r h) s hs

/-- The inner fold over the exploded polygons equals a plain fold of
`writerPush` over the filtered, mapped fragment list. -/
theorem foldl_skip_eq_filter (ps : List ℚ) (st : WriterState)
    (mk : ℚ → Record) :
    ps.foldl (fun s a => if a < 1 then s else writerPush s (mk a)) st
      = ((ps.filter (fun a => decide (¬ a < 1))).map mk).foldl writerPush st := by
  induction ps generalizing st with
  | nil => rfl
  | cons a ps ih =>
      by_cases h : a < 1
      · simp [List.filter_cons, h, ih]
      · have h1 : (1 : ℚ) ≤ a := not_lt.mp h
        simp [List.filter_cons, h, h1, ih]

theorem processCandidate_eq (n : Nat) (C : OverlayCtx n) (f : InvFeature)
    (st : WriterState) (i : Fin n) :
    processCandidate C f st i = (candFrags C f i).foldl writerPush st := by
  simp only [processCandidate, candFrags]
  split
  · rfl
  · exact foldl_skip_eq_filter _ st _

theorem foldl_processCandidate_eq (n : Nat) (C : OverlayCtx n) (f : InvFeature)
    (idxs : List (Fin n)) (st : WriterState) :
    idxs.foldl (processCandidate C f) st
      = (idxs.flatMap (candFrags C f)).foldl writerPush st := by
  induction idxs generalizing st with
  | nil => rfl
  | cons i idxs ih =>
      rw [List.foldl_cons, List.flatMap_cons, List.foldl_append,
        ← processCandidate_eq, ih]

theorem processFeature_eq (n : Nat) (C : OverlayCtx n) (st : WriterState)
    (f : InvFeature) :
    processFeature C st f = (featureFrags C f).foldl writerPush st := by
  simp only [processFeature, featureFrags]
  split
  · rename_i h
    rw [List.length_eq_zero] at h
    rw [h]
    rfl
  · exact foldl_processCandidate_eq n C f _ st

theorem runOverlay_eq (n : Nat) (C : OverlayCtx n) (feats : List InvFeature) :
    runOverlay C feats = (acceptedFrags C feats).foldl writerPush ⟨[], 0, []⟩ := by
  simp only [runOverlay, acceptedFrags]
  generalize (⟨[], 0, []⟩ : WriterState) = st
  induction feats generalizing st with
  | nil => rfl
  | cons f feats ih =>
      rw [List.foldl_cons, List.flatMap_cons, List.foldl_append,
        ← processFeature_eq, ih]

/-- The persisted dataset of a run is exactly the accepted fragments, in
acceptance order. -/
theorem overlayOutput_eq (n : Nat) (C : OverlayCtx n) (feats : List InvFeature) :
    overlayOutput C feats = acceptedFrags C feats := by
  rw [overlayOutput, runOverlay_eq, finalFlush_foldl]
  rfl

/-! ### C8 — bounded buffer with complete flush -/

/-- C8: throughout the overlay run the in-memory buffer holds at most
`BUFFER_SIZE` (5,000) fragments; the run is a fold of `writerPush` over the
accepted fragments, where a push that fills the buffer appends its contents to
the persisted dataset and clears it; and after the end-of-run flush every
accepted fragment is persisted exactly once, in acceptance order. -/
theorem C8_bounded_buffer (n : Nat) (C : OverlayCtx n) (feats : List InvFeature)
    (st : WriterState) (r : Record) :
    (∀ s ∈ (acceptedFrags C feats).scanl writerPush ⟨[], 0, []⟩,
        s.buffer.length ≤ BUFFER_SIZE) ∧
    runOverlay C feats = (acceptedFrags C feats).foldl writerPush ⟨[], 0, []⟩ ∧
    overlayOutput C feats = acceptedFrags C feats ∧
    writerPush st r =
      (if BUFFER_SIZE ≤ st.buffer.length + 1
       then ⟨[], st.count + 1, st.dst ++ (st.buffer ++ [r])⟩
       else ⟨st.buffer ++ [r], st.count + 1, st.dst⟩) := by
  refine ⟨fun s hs => ?_, runOverlay_eq n C feats, overlayOutput_eq n C feats, ?_⟩
  · exact le_of_lt (buffer_scanl_lt _ _ (by simp [BUFFER_SIZE]) s hs)
  · simp only [writerPush, List.length_append, List.length_singleton]

/-- C8 witness: at a concrete instance, a state drawn from the scanl list
respects the bound, and a push at the cap flushes. -/
theorem C8_bounded_buffer_witness :
    ((⟨[], 0, []⟩ : WriterState) ∈
      (acceptedFrags ⟨fun _ => ⟨Geom.poly 4, none, some "O", none, some "CT",
          none, none, none, none⟩, [], fun _ => [(0 : Fin 1)],
          fun _ _ => Geom.poly 2⟩ [⟨Geom.poly 3, some "60", some "AB", none⟩]).scanl
        writerPush ⟨[], 0, []⟩) ∧
    (⟨[], 0, []⟩ : WriterState).buffer.length ≤ BUFFER_SIZE := by
  constructor
  · decide
  · exact (C8_bounded_buffer 1
      ⟨fun _ => ⟨Geom.poly 4, none, some "O", none, some "CT", none, none, none, none⟩,
        [], fun _ => [(0 : Fin 1)], fun _ _ => Geom.poly 2⟩
      [⟨Geom.poly 3, some "60", some "AB", none⟩] ⟨[], 0, []⟩
      ⟨none, none, none, none, none, none, none, none, none, none, none,
        Geom.poly 2, none, none⟩).1 ⟨[], 0, []⟩ (by decide)

/-! ### C4 — minimum-area invariant -/

/-- C4: every record of the persisted dataset is a single polygon of
area ≥ 1; multi-part intersections are exploded and the ≥ 1 filter applied to
each constituent independently. -/
theorem C4_min_area (n : Nat) (C : OverlayCtx n) (feats : List InvFeature)
    (r : Record) (hr : r ∈ overlayOutput C feats) :
    ∃ a : ℚ, r.fragGeom = Geom.poly a ∧ 1 ≤ a := by
  rw [overlayOutput_eq] at hr
  simp only [acceptedFrags, featureFrags, List.mem_flatMap] at hr
  obtain ⟨f, _, i, _, hr⟩ := hr
  unfold candFrags at hr
  by_cases hc : C.inter f.geom (C.interv i).geom = Geom.empty ∨
      garea (C.inter f.geom (C.interv i).geom) < 1
  · rw [if_pos hc] at hr
    exact absurd hr (List.not_mem_nil r)
  · rw [if_neg hc] at hr
    simp only [List.mem_map, List.mem_filter] at hr
    obtain ⟨a, ⟨_, ha⟩, rfl⟩ := hr
    refine ⟨a, rfl, ?_⟩
    have := of_decide_eq_true ha
    exact not_lt.mp this

/-- C4 witness: a concrete run whose single fragment has area 2. -/
theorem C4_min_area_witness :
    (mkRecord [] ⟨Geom.poly 3, some "60", some "AB", none⟩
        ⟨Geom.poly 4, none, some "O", none, some "CT", none, none, none, none⟩ 2 ∈
      overlayOutput
        ⟨fun _ => ⟨Geom.poly 4, none, some "O", none, some "CT", none, none, none, none⟩,
          [], fun _ => [(0 : Fin 1)], fun _ _ => Geom.poly 2⟩
        [⟨Geom.poly 3, some "60", some "AB", none⟩]) ∧
    (∃ a : ℚ, (mkRecord [] ⟨Geom.poly 3, some "60", some "AB", none⟩
        ⟨Geom.poly 4, none, some "O", none, some "CT", none, none, none, none⟩ 2).fragGeom
          = Geom.poly a ∧ 1 ≤ a) := by
  constructor
  · decide
  · exact C4_min_area 1
      ⟨fun _ => ⟨Geom.poly 4, none, some "O", none, some "CT", none, none, none, none⟩,
        [], fun _ => [(0 : Fin 1)], fun _ _ => Geom.poly 2⟩
      [⟨Geom.poly 3, some "60", some "AB", none⟩] _ (by decide)

/-! ### C2 — checkpoint idempotence -/

theorem enrich_enrich (cats : List (String × Option String)) (r : Record) :
    enrich cats (enrich cats r) = enrich cats r := rfl

/-- C2: with a valid existing checkpoint the overlay phase is skipped, and a
second run against the persisted output of a first run leaves the persisted
dataset unchanged. -/
theorem C2_checkpoint_idempotent (cats : List (String × Option String))
    (ds fresh : List Record) :
    (pipelineRun cats (Checkpoint.valid ds) fresh).2 = false ∧
    pipelineRun cats
        (Checkpoint.valid ((pipelineRun cats (Checkpoint.valid ds) fresh).1)) fresh
      = pipelineRun cats (Checkpoint.valid ds) fresh := by
  refine ⟨rfl, ?_⟩
  simp only [pipelineRun, validateCheckpoint, step3Result, List.map_map]
  refine Prod.ext ?_ rfl
  simp only
  exact List.map_congr_left fun r _ => enrich_enrich cats r

/-! ### C5 — corrupt-checkpoint recovery -/

/-- C5: a persisted output that fails to open or parse is deleted in full
(validation turns a corrupt checkpoint into a missing one), the run then
behaves exactly like a from-scratch run (the corrupt data is never trusted or
appended to), the overlay recomputation runs, and the recovery is a total
(non-fatal) step. -/
theorem C5_corrupt_checkpoint (cats : List (String × Option String))
    (fresh : List Record) :
    validateCheckpoint Checkpoint.corrupt = Checkpoint.missing ∧
    pipelineRun cats Checkpoint.corrupt fresh
      = pipelineRun cats Checkpoint.missing fresh ∧
    (pipelineRun cats Checkpoint.corrupt fresh).2 = true :=
  ⟨rfl, rfl, rfl⟩

/-! ### C6 — CutType totality -/

/-- A fragment record whose PERTURB and ORIGINE codes are both null. -/
def bothNullRec : Record :=
  { exercice := none, origine := none, an_origine := none, perturb := none,
    an_perturb := none, reb_ess1 := none, reb_ess2 := none, reb_ess3 := none,
    cl_age := some "Even", gr_ess := some "Tol", co_ter := none,
    fragGeom := Geom.poly 2 }

/-- C6 counterexample: a fragment whose disturbance and origin codes are both
null gets a null CutType — "the resulting CutType is never null" is false. -/
theorem C6_counterexample : cuttypeCol [] bothNullRec = none := rfl

/-- C6 amended: CutType equals the disturbance code if it is present, else
the origin code, remapped to its canonical English category when the chosen
code is a key of the cut-category dictionary whose entry carries one, and
passed through unchanged otherwise — both when the code is absent from the
dictionary and when it is a key whose entry lacks the English-category field
(the source's `.get` default); the resulting CutType is non-null whenever at
least one of the two codes is non-null (both null gives null CutType, per the
counterexample). -/
theorem C6_cuttype_amended (cats : List (String × Option String))
    (p o : Option String) (h : p ≠ none ∨ o ≠ none) :
    (cuttypeFinal cats p o).isSome ∧
    (∀ s c, chooseCut p o = some s → List.lookup s cats = some (some c) →
      cuttypeFinal cats p o = some c) ∧
    (∀ s, chooseCut p o = some s → List.lookup s cats = none →
      cuttypeFinal cats p o = some s) ∧
    (∀ s, chooseCut p o = some s → List.lookup s cats = some none →
      cuttypeFinal cats p o = some s) := by
  have hs : ∃ s, chooseCut p o = some s := by
    cases p with
    | some s => exact ⟨s, rfl⟩
    | none =>
        cases o with
        | some s => exact ⟨s, rfl⟩
        | none => rcases h with h | h <;> exact absurd rfl h
  obtain ⟨s, hcs⟩ := hs
  refine ⟨?_, ?_, ?_, ?_⟩
  · rw [cuttypeFinal, hcs, reclassify_cuttype]
    cases List.lookup s cats <;> simp
  · intro s' c hcs' hl
    rw [hcs'] at hcs
    cases hcs
    rw [cuttypeFinal, hcs', reclassify_cuttype, hl]
    rfl
  · intro s' hcs' hl
    rw [hcs'] at hcs
    cases hcs
    rw [cuttypeFinal, hcs', reclassify_cuttype, hl]
  · intro s' hcs' hl
    rw [hcs'] at hcs
    cases hcs
    rw [cuttypeFinal, hcs', reclassify_cuttype, hl]
    rfl

/-- C6 witness: a present disturbance code "CT" remapped by the dictionary,
and the same code passed through unchanged when its entry lacks the
English-category field. -/
theorem C6_cuttype_amended_witness :
    ((some "CT" : Option String) ≠ none ∨ (none : Option String) ≠ none) ∧
    (cuttypeFinal [("CT", some "Commercial thinning")] (some "CT") none).isSome ∧
    cuttypeFinal [("CT", none)] (some "CT") none = some "CT" := by
  refine ⟨Or.inl (by decide), ?_, ?_⟩
  · exact (C6_cuttype_amended [("CT", some "Commercial thinning")] (some "CT") none
      (Or.inl (by decide))).1
  · exact (C6_cuttype_amended [("CT", none)] (some "CT") none
      (Or.inl (by decide))).2.2.2 "CT" rfl (by decide)

/-! ### C9 — shade-tolerance classification -/

/-- C9: null species code gives null; otherwise the first two characters are
looked up: a `Tolérant` entry gives `Tol`, an `Intolérant` entry gives
`Intol`, an absent key gives `Unknown`, and a present key whose tolerance
value is anything else also gives `Unknown`. -/
theorem C9_shade_tolerance (tbl : List (String × Option String)) (g : String) :
    (classify_shade_tolerance tbl none = none) ∧
    (List.lookup (g.take 2) tbl = some (some "Tolérant") →
      classify_shade_tolerance tbl (some g) = some "Tol") ∧
    (List.lookup (g.take 2) tbl = some (some "Intolérant") →
      classify_shade_tolerance tbl (some g) = some "Intol") ∧
    (List.lookup (g.take 2) tbl = none →
      classify_shade_tolerance tbl (some g) = some "Unknown") ∧
    (∀ t, List.lookup (g.take 2) tbl = some t → t ≠ some "Tolérant" →
      t ≠ some "Intolérant" → classify_shade_tolerance tbl (some g) = some "Unknown") := by
  refine ⟨rfl, ?_, ?_, ?_, ?_⟩
  · intro hl
    rw [classify_shade_tolerance, hl]
    rfl
  · intro hl
    rw [classify_shade_tolerance, hl]
    rfl
  · intro hl
    rw [classify_shade_tolerance, hl]
  · intro t hl ht hi
    rw [classify_shade_tolerance, hl]
    simp only [Option.some.injEq]
    cases t with
    | none => rfl
    | some tv =>
        have htv : tv ≠ "Tolérant" := fun hh => ht (by rw [hh])
        have hiv : tv ≠ "Intolérant" := fun hh => hi (by rw [hh])
        simp [Option.getD, htv, hiv]

/-- C9 witness: a tolerant species code with a 3-character input. -/
theorem C9_shade_tolerance_witness :
    (List.lookup ("ABC".take 2) [("AB", some "Tolérant")] = some (some "Tolérant")) ∧
    classify_shade_tolerance [("AB", some "Tolérant")] (some "ABC") = some "Tol" := by
  refine ⟨by decide, ?_⟩
  exact (C9_shade_tolerance [("AB", some "Tolérant")] "ABC").2.1 (by decide)

/-! ### C7 — defect counting -/

/-- A concrete overlay instance whose only candidate intersection is a single
polygon of area 1/2, below the minimum-area threshold. -/
def ctx7 : OverlayCtx 1 :=
  { interv := fun _ =>
      { geom := Geom.poly 4, exercice := none, origine := some "O",
        an_origine := none, perturb := some "CT", an_perturb := none,
        reb_ess1 := none, reb_ess2 := none, reb_ess3 := none }
    shadeTbl := []
    query := fun _ => [(0 : Fin 1)]
    inter := fun _ _ => Geom.poly (mkRat 1 2) }

def feat7 : InvFeature :=
  { geom := Geom.poly 3, cl_age := some "60", gr_ess := some "AB", co_ter := none }

/-- C7 counterexample: a run that discards one below-threshold fragment ends
in a writer state identical to the initial state — every counter the loop
maintains (there is only `count`, the count of written fragments) is
unchanged, so no count of skipped features or discarded fragments is
incremented, contrary to the claim. -/
theorem C7_counterexample :
    runOverlay ctx7 [feat7] = ⟨[], 0, []⟩ ∧ overlayOutput ctx7 [feat7] = [] := by
  constructor
  · rfl
  · rfl

/-- C7 amended: a candidate whose exact intersection has area below 1 (which
includes empty and non-polygonal intersections, of area 0) is skipped without
terminating the run and without touching any state: the loop keeps no defect
or discard counters, and its only counter counts written fragments.  A
non-polygonal geometry also explodes to no constituent polygons. -/
theorem C7_skip_amended (n : Nat) (C : OverlayCtx n) (f : InvFeature)
    (st : WriterState) (i : Fin n)
    (h : garea (C.inter f.geom (C.interv i).geom) < 1) :
    processCandidate C f st i = st ∧ extract_polygons Geom.other = [] := by
  refine ⟨?_, rfl⟩
  unfold processCandidate
  rw [if_pos (Or.inr h)]

/-- C7 witness: the concrete below-threshold candidate is skipped with the
state unchanged. -/
theorem C7_skip_amended_witness :
    (garea (ctx7.inter feat7.geom (ctx7.interv 0).geom) < 1) ∧
    processCandidate ctx7 feat7 ⟨[], 0, []⟩ 0 = ⟨[], 0, []⟩ := by
  refine ⟨by decide, ?_⟩
  exact (C7_skip_amended 1 ctx7 feat7 ⟨[], 0, []⟩ 0 (by decide)).1

/-! ### C1 — overlay completeness -/

theorem flatMap_eq_flatMap_filter {α β : Type} (l : List α) (g : α → List β)
    [DecidablePred fun i => g i ≠ []] :
    l.flatMap g = (l.filter (fun i => decide (g i ≠ []))).flatMap g := by
  induction l with
  | nil => rfl
  | cons i l ih =>
      rw [List.flatMap_cons, List.filter_cons]
      by_cases h : g i = []
      · rw [if_neg (by simp [h]), h, List.nil_append]
        exact ih
      · rw [if_pos (by simp [h]), List.flatMap_cons, ih]

theorem flatMap_perm_of_nodup {α β : Type} [DecidableEq α] (l₁ l₂ : List α)
    (h₁ : l₁.Nodup) (h₂ : l₂.Nodup) (g : α → List β) [DecidablePred fun i => g i ≠ []]
    (hmem : ∀ i, g i ≠ [] → (i ∈ l₁ ↔ i ∈ l₂)) :
    List.Perm (l₁.flatMap g) (l₂.flatMap g) := by
  rw [flatMap_eq_flatMap_filter l₁ g, flatMap_eq_flatMap_filter l₂ g]
  refine List.Perm.flatMap_right g ?_
  rw [List.perm_ext_iff_of_nodup (h₁.filter _) (h₂.filter _)]
  intro a
  simp only [List.mem_filter, decide_eq_true_eq]
  constructor
  · rintro ⟨hm, hg⟩
    exact ⟨(hmem a hg).mp hm, hg⟩
  · rintro ⟨hm, hg⟩
    exact ⟨(hmem a hg).mpr hm, hg⟩

/-- C1: assuming the spatial index returns duplicate-free candidate lists that
contain every truly intersecting intervention (a superset of true
intersections), the persisted dataset is — up to order — exactly the
fragments obtained by intersecting EVERY inventory/intervention pair, keeping
the pairs whose exact intersection is non-empty with area ≥ 1, exploding each
into constituent polygons and keeping those of area ≥ 1: the complete,
deduplicated fragment set, one record per qualifying constituent polygon. -/
theorem C1_overlay_complete (n : Nat) (C : OverlayCtx n) (feats : List InvFeature)
    (hnd : ∀ f ∈ feats, (C.query f.geom).Nodup)
    (hsup : ∀ f ∈ feats, ∀ i : Fin n,
      C.inter f.geom (C.interv i).geom ≠ Geom.empty → i ∈ C.query f.geom) :
    List.Perm (overlayOutput C feats)
      (feats.flatMap (fun f => (List.finRange n).flatMap (candFrags C f))) := by
  rw [overlayOutput_eq]
  unfold acceptedFrags
  refine List.Perm.flatMap_left feats (fun f hf => ?_)
  unfold featureFrags
  refine flatMap_perm_of_nodup _ _ (hnd f hf) (List.nodup_finRange n) _ ?_
  intro i hgi
  constructor
  · intro _
    exact List.mem_finRange i
  · intro _
    refine hsup f hf i (fun hemp => hgi ?_)
    unfold candFrags
    rw [if_pos (Or.inl hemp)]

def ctx1w : OverlayCtx 1 :=
  { interv := fun _ =>
      { geom := Geom.poly 4, exercice := some "2020", origine := some "O",
        an_origine := none, perturb := some "CT", an_perturb := none,
        reb_ess1 := none, reb_ess2 := none, reb_ess3 := none }
    shadeTbl := [("AB", some "Tolérant")]
    query := fun _ => [(0 : Fin 1)]
    inter := fun _ _ => Geom.poly 2 }

def feat1w : InvFeature :=
  { geom := Geom.poly 9, cl_age := some "60", gr_ess := some "AB", co_ter := some "T" }

/-- C1 witness: a concrete one-pair instance satisfying both hypotheses. -/
theorem C1_overlay_complete_witness :
    (∀ f ∈ [feat1w], (ctx1w.query f.geom).Nodup) ∧
    (∀ f ∈ [feat1w], ∀ i : Fin 1,
      ctx1w.inter f.geom (ctx1w.interv i).geom ≠ Geom.empty → i ∈ ctx1w.query f.geom) ∧
    (List.Perm (overlayOutput ctx1w [feat1w])
      ([feat1w].flatMap (fun f => (List.finRange 1).flatMap (candFrags ctx1w f)))) :=
  ⟨by decide, by decide,
    C1_overlay_complete 1 ctx1w [feat1w] (by decide) (by decide)⟩

/-! ### List-sum helpers for the aggregator -/

theorem list_sum_map_add {α : Type} (l : List α) (f g : α → ℚ) :
    (l.map (fun x => f x + g x)).sum = (l.map f).sum + (l.map g).sum := by
  induction l with
  | nil => simp
  | cons a l ih =>
      simp only [List.map_cons, List.sum_cons, ih]
      ring

theorem list_sum_map_sub {α : Type} (l : List α) (f g : α → ℚ) :
    (l.map (fun x => f x - g x)).sum = (l.map f).sum - (l.map g).sum := by
  induction l with
  | nil => simp
  | cons a l ih =>
      simp only [List.map_cons, List.sum_cons, ih]
      ring

theorem list_abs_sum_le (l : List ℚ) : |l.sum| ≤ (l.map (fun x => |x|)).sum := by
  induction l with
  | nil => simp
  | cons a l ih =>
      rw [List.sum_cons, List.map_cons, List.sum_cons]
      calc |a + l.sum| ≤ |a| + |l.sum| := abs_add a l.sum
        _ ≤ |a| + (l.map (fun x => |x|)).sum := by linarith

theorem list_sum_le_length_mul (l : List ℚ) (c : ℚ) (h : ∀ x ∈ l, x ≤ c) :
    l.sum ≤ l.length * c := by
  induction l with
  | nil => simp
  | cons a l ih =>
      rw [List.sum_cons, List.length_cons]
      have h2 := ih (fun x hx => h x (List.mem_cons_of_mem a hx))
      have ha := h a (List.mem_cons_self a l)
      have : ((l.length + 1 : Nat) : ℚ) * c = (l.length : ℚ) * c + c := by
        push_cast
        ring
      rw [this]
      linarith

/-- The model of numpy 4-decimal rounding is within 1/20000 of its input. -/
theorem abs_round4_sub (q : ℚ) : |round4 q - q| ≤ 1 / 20000 := by
  have h : |q * 10000 - (round (q * 10000) : ℚ)| ≤ 1 / 2 := abs_sub_round (q * 10000)
  have e : round4 q - q = -(q * 10000 - (round (q * 10000) : ℚ)) / 10000 := by
    unfold round4
    ring
  rw [e, abs_div, abs_neg, abs_of_pos (by norm_num : (0 : ℚ) < 10000)]
  rw [div_le_iff₀ (by norm_num : (0 : ℚ) < 10000)]
  linarith

/-! ### C3 — probability-matrix normalization -/

/-- C3 amended: every remaining column of the probability matrix either sums
to 1 (exactly before the final 4-decimal rounding, and within the 4-decimal
rounding tolerance after it), or — when the reconstructed, filtered column sum
is zero — is output as all zeros; the division is total, never NaN. -/
theorem C3_prob_matrix (cats : List (String × Option String)) (rows : List Record)
    (ft : String) (hft : ft ∈ probCols) :
    (colSumFiltered cats rows ft = 0 →
      ∀ ct ∈ probRowKeys cats rows, matrix_prob cats rows ct ft = 0) ∧
    (colSumFiltered cats rows ft ≠ 0 →
      ((probRowKeys cats rows).map (fun ct =>
        fillna0 (pandasDiv (matrixFromPct cats rows ct ft)
          (colSumFiltered cats rows ft)))).sum = 1 ∧
      |((probRowKeys cats rows).map (fun ct => matrix_prob cats rows ct ft)).sum - 1|
        ≤ ((probRowKeys cats rows).length : ℚ) * (1 / 20000)) := by
  constructor
  · intro hs ct _
    rw [matrix_prob, hs]
    simp [pandasDiv, fillna0, round4]
  · intro hs
    have hdiv : ∀ ct, fillna0 (pandasDiv (matrixFromPct cats rows ct ft)
        (colSumFiltered cats rows ft))
          = matrixFromPct cats rows ct ft / colSumFiltered cats rows ft := by
      intro ct
      rw [pandasDiv, if_neg hs]
      rfl
    have hsum1 : ((probRowKeys cats rows).map (fun ct =>
        matrixFromPct cats rows ct ft / colSumFiltered cats rows ft)).sum = 1 := by
      have hfn : (fun ct => matrixFromPct cats rows ct ft / colSumFiltered cats rows ft)
          = (fun ct => matrixFromPct cats rows ct ft * (colSumFiltered cats rows ft)⁻¹) :=
        funext (fun ct => div_eq_mul_inv _ _)
      rw [hfn, List.sum_map_mul_right]
      exact mul_inv_cancel₀ hs
    constructor
    · rw [List.map_congr_left (fun ct _ => hdiv ct)]
      exact hsum1
    · have hP : ∀ ct, matrix_prob cats rows ct ft
          = round4 (matrixFromPct cats rows ct ft / colSumFiltered cats rows ft) := by
        intro ct
        rw [matrix_prob, hdiv ct]
      have hsub : ((probRowKeys cats rows).map
            (fun ct => matrix_prob cats rows ct ft)).sum - 1
          = ((probRowKeys cats rows).map (fun ct =>
              matrix_prob cats rows ct ft
                - matrixFromPct cats rows ct ft / colSumFiltered cats rows ft)).sum := by
        rw [list_sum_map_sub, hsum1]
      rw [hsub]
      calc |((probRowKeys cats rows).map (fun ct =>
              matrix_prob cats rows ct ft
                - matrixFromPct cats rows ct ft / colSumFiltered cats rows ft)).sum|
          ≤ ((probRowKeys cats rows).map (fun ct =>
              |matrix_prob cats rows ct ft
                - matrixFromPct cats rows ct ft / colSumFiltered cats rows ft|)).sum := by
            have h0 := list_abs_sum_le ((probRowKeys cats rows).map (fun ct =>
              matrix_prob cats rows ct ft
                - matrixFromPct cats rows ct ft / colSumFiltered cats rows ft))
            rw [List.map_map] at h0
            exact h0
        _ ≤ ((probRowKeys cats rows).map (fun ct =>
              |matrix_prob cats rows ct ft
                - matrixFromPct cats rows ct ft / colSumFiltered cats rows ft|)).length
              * (1 / 20000) := by
            refine list_sum_le_length_mul _ _ ?_
            intro x hx
            rw [List.mem_map] at hx
            obtain ⟨ct, _, rfl⟩ := hx
            rw [hP ct]
            exact abs_round4_sub _
        _ = ((probRowKeys cats rows).length : ℚ) * (1 / 20000) := by
            rw [List.length_map]

/-! ### C10 — null CutType exclusion and the percentage total -/

theorem list_sum_ite_eq_zero (l : List String) (x : String) (hx : x ∉ l)
    (v : String → ℚ) :
    (l.map (fun y => if y = x then v y else 0)).sum = 0 := by
  induction l with
  | nil => rfl
  | cons a l ih =>
      rw [List.map_cons, List.sum_cons,
        if_neg (fun h => hx (by rw [← h]; exact List.mem_cons_self a l)),
        ih (fun h => hx (List.mem_cons_of_mem a h)), add_zero]

theorem list_sum_ite_eq (l : List String) (hl : l.Nodup) (x : String) (hx : x ∈ l)
    (v : String → ℚ) :
    (l.map (fun y => if y = x then v y else 0)).sum = v x := by
  induction l with
  | nil => cases hx
  | cons a l ih =>
      rw [List.map_cons, List.sum_cons]
      by_cases hax : a = x
      · subst hax
        rw [if_pos rfl,
          list_sum_ite_eq_zero l a (List.nodup_cons.mp hl).1 v, add_zero]
      · rw [if_neg hax, zero_add]
        rcases List.mem_cons.mp hx with h | h
        · exact absurd h.symm hax
        · exact ih (List.nodup_cons.mp hl).2 h

theorem ftype_mem_forest_types (r : Record) : forestTypeCol r ∈ forest_types := by
  unfold forestTypeCol classify_forest_type forest_types
  split_ifs <;> simp

theorem cellArea_cons (cats : List (String × Option String)) (r : Record)
    (rows : List Record) (ct ft : String) :
    cellArea cats (r :: rows) ct ft
      = (if cuttypeCol cats r = some ct ∧ forestTypeCol r = ft
         then areacutOf r else 0)
        + cellArea cats rows ct ft := by
  unfold cellArea
  rw [List.filter_cons]
  by_cases h1 : cuttypeCol cats r = some ct
  · by_cases h2 : forestTypeCol r = ft
    · rw [if_pos (by simp [h1, h2]), if_pos ⟨h1, h2⟩, List.map_cons, List.sum_cons]
    · rw [if_neg (by simp [h1, h2]), if_neg (fun h => h2 h.2), zero_add]
  · rw [if_neg (by simp [h1]), if_neg (fun h => h1 h.1), zero_add]

theorem nonNullArea_cons (cats : List (String × Option String)) (r : Record)
    (rows : List Record) :
    nonNullArea cats (r :: rows)
      = (if (cuttypeCol cats r).isSome then areacutOf r else 0)
        + nonNullArea cats rows := by
  unfold nonNullArea
  rw [List.filter_cons]
  by_cases h : (cuttypeCol cats r).isSome
  · rw [if_pos (by simp [h]), if_pos h, List.map_cons, List.sum_cons]
  · rw [if_neg (by simp [h]), if_neg h, zero_add]

theorem indicator_sum (cats : List (String × Option String)) (r : Record)
    (L : List String) (hL : L.Nodup)
    (hcv : ∀ c, cuttypeCol cats r = some c → c ∈ L) :
    (L.map (fun ct => (forest_types.map (fun ft =>
        if cuttypeCol cats r = some ct ∧ forestTypeCol r = ft
        then areacutOf r else 0)).sum)).sum
      = if (cuttypeCol cats r).isSome then areacutOf r else 0 := by
  cases hc : cuttypeCol cats r with
  | none =>
      have hct : ∀ ct, (forest_types.map (fun ft =>
          if (none : Option String) = some ct ∧ forestTypeCol r = ft
          then areacutOf r else 0)).sum = 0 := by
        intro ct
        have hz : ∀ ft ∈ forest_types,
            (if (none : Option String) = some ct ∧ forestTypeCol r = ft
             then areacutOf r else 0) = (0 : ℚ) := by
          intro ft _
          rw [if_neg]
          rintro ⟨h, _⟩
          cases h
        rw [List.map_congr_left hz]
        simp
      rw [List.map_congr_left (fun ct _ => hct ct)]
      simp
  | some c0 =>
      have hinner : ∀ ct ∈ L, (forest_types.map (fun ft =>
          if some c0 = some ct ∧ forestTypeCol r = ft then areacutOf r else 0)).sum
            = if ct = c0 then areacutOf r else 0 := by
        intro ct _
        by_cases hct : ct = c0
        · subst hct
          have he : ∀ ft ∈ forest_types,
              (if some ct = some ct ∧ forestTypeCol r = ft then areacutOf r else 0)
                = (if ft = forestTypeCol r then areacutOf r else 0) := by
            intro ft _
            by_cases hft : forestTypeCol r = ft
            · rw [if_pos ⟨rfl, hft⟩, if_pos hft.symm]
            · rw [if_neg (fun h => hft h.2), if_neg (fun h => hft h.symm)]
          rw [List.map_congr_left he, if_pos rfl]
          exact list_sum_ite_eq forest_types (by decide) (forestTypeCol r)
            (ftype_mem_forest_types r) (fun _ => areacutOf r)
        · rw [if_neg hct]
          have hz : ∀ ft ∈ forest_types,
              (if some c0 = some ct ∧ forestTypeCol r = ft then areacutOf r else 0)
                = (0 : ℚ) := by
            intro ft _
            rw [if_neg]
            rintro ⟨h, _⟩
            exact hct (Option.some.inj h).symm
          rw [List.map_congr_left hz]
          simp
      rw [List.map_congr_left hinner]
      simp only [Option.isSome_some, if_true]
      exact list_sum_ite_eq L hL c0 (hcv c0 hc) (fun _ => areacutOf r)

/-- All area with a non-null CUTTYPE is counted exactly once across the cells
of the groupby matrix, for any duplicate-free key list covering the CUTTYPE
values (the null-CUTTYPE rows belong to no cell). -/
theorem cells_partition (cats : List (String × Option String)) (rows : List Record)
    (L : List String) (hL : L.Nodup)
    (hcov : ∀ r ∈ rows, ∀ c, cuttypeCol cats r = some c → c ∈ L) :
    (L.map (fun ct => (forest_types.map (fun ft => cellArea cats rows ct ft)).sum)).sum
      = nonNullArea cats rows := by
  induction rows with
  | nil =>
      have hct : ∀ ct ∈ L, (forest_types.map
          (fun ft => cellArea cats [] ct ft)).sum = (0 : ℚ) := by
        intro ct _
        have hz : ∀ ft ∈ forest_types, cellArea cats [] ct ft = (0 : ℚ) := by
          intro ft _
          rfl
        rw [List.map_congr_left hz]
        simp
      rw [List.map_congr_left hct]
      simp [nonNullArea]
  | cons r rows ih =>
      have ih' := ih (fun r' hr' c hc => hcov r' (List.mem_cons_of_mem r hr') c hc)
      have hcell : ∀ ct ∈ L, (forest_types.map
          (fun ft => cellArea cats (r :: rows) ct ft)).sum
            = (forest_types.map (fun ft =>
                if cuttypeCol cats r = some ct ∧ forestTypeCol r = ft
                then areacutOf r else 0)).sum
              + (forest_types.map (fun ft => cellArea cats rows ct ft)).sum := by
        intro ct _
        rw [List.map_congr_left
          (fun ft _ => cellArea_cons cats r rows ct ft), list_sum_map_add]
      rw [List.map_congr_left hcell, list_sum_map_add,
        indicator_sum cats r L hL (fun c hc => hcov r (List.mem_cons_self r rows) c hc),
        ih', nonNullArea_cons]

theorem rowKeys_nodup (cats : List (String × Option String)) (rows : List Record) :
    (rowKeys cats rows).Nodup :=
  List.nodup_dedup _

theorem mem_rowKeys_of (cats : List (String × Option String)) (rows : List Record) :
    ∀ r ∈ rows, ∀ c, cuttypeCol cats r = some c → c ∈ rowKeys cats rows := by
  intro r hr c hc
  unfold rowKeys
  rw [List.mem_dedup, List.mem_filterMap]
  exact ⟨r, hr, hc⟩

theorem total_split (cats : List (String × Option String)) (rows : List Record) :
    total_area rows = nonNullArea cats rows
      + ((rows.filter (fun r => !(cuttypeCol cats r).isSome)).map areacutOf).sum := by
  induction rows with
  | nil => simp [total_area, nonNullArea]
  | cons r rows ih =>
      rw [total_area, List.map_cons, List.sum_cons, nonNullArea_cons, List.filter_cons]
      by_cases h : (cuttypeCol cats r).isSome
      · rw [if_pos h, if_neg (by simp [h])]
        rw [show (rows.map areacutOf).sum = total_area rows from rfl, ih]
        ring
      · rw [if_neg h, if_pos (by simp [h]), List.map_cons, List.sum_cons]
        rw [show (rows.map areacutOf).sum = total_area rows from rfl, ih]
        ring

/-- C10 amended: a fragment whose disturbance and origin codes are both null
gets a null CutType and is excluded from the (CutType, ForestType) cells of
the matrices while its area still enters the grand-total denominator; hence,
when the areas are non-negative and at least one positive-area null-CutType
fragment exists, the cells of the percentage matrix sum to strictly less than
100 BEFORE the 2-decimal rounding (after rounding the sum can reach 100). -/
theorem C10_null_cuttype (cats : List (String × Option String)) (rows : List Record)
    (hnn : ∀ r ∈ rows, 0 ≤ areacutOf r)
    (hex : ∃ r ∈ rows, cuttypeCol cats r = none ∧ 0 < areacutOf r) :
    (∀ r : Record, r.perturb = none → r.origine = none → cuttypeCol cats r = none) ∧
    ((rowKeys cats rows).map
      (fun ct => (forest_types.map (fun ft => cellArea cats rows ct ft)).sum)).sum
        = nonNullArea cats rows ∧
    pctCellsSumRaw cats rows < 100 := by
  have hpart := cells_partition cats rows (rowKeys cats rows)
    (rowKeys_nodup cats rows) (mem_rowKeys_of cats rows)
  refine ⟨fun r hp ho => by rw [cuttypeCol, cuttypeFinal, hp, ho]; rfl, hpart, ?_⟩
  -- pctCellsSumRaw = nonNullArea * (100 / total)
  have hraw : pctCellsSumRaw cats rows
      = nonNullArea cats rows * (100 / total_area rows) := by
    unfold pctCellsSumRaw
    have h1 : ∀ ct ∈ rowKeys cats rows, (forest_types.map
        (fun ft => cellArea cats rows ct ft / total_area rows * 100)).sum
          = (forest_types.map (fun ft => cellArea cats rows ct ft)).sum
            * (100 / total_area rows) := by
      intro ct _
      rw [show (fun ft => cellArea cats rows ct ft / total_area rows * 100)
          = (fun ft => cellArea cats rows ct ft * (100 / total_area rows)) from
          funext (fun ft => by ring), List.sum_map_mul_right]
    rw [List.map_congr_left h1, List.sum_map_mul_right, hpart]
  -- the null area is positive, so nonNullArea < total_area
  obtain ⟨r0, hr0, hc0, ha0⟩ := hex
  have hr0f : r0 ∈ rows.filter (fun r => !(cuttypeCol cats r).isSome) := by
    rw [List.mem_filter, hc0]
    exact ⟨hr0, rfl⟩
  have hnullpos : 0 < ((rows.filter
      (fun r => !(cuttypeCol cats r).isSome)).map areacutOf).sum := by
    have hmem : areacutOf r0 ∈ (rows.filter
        (fun r => !(cuttypeCol cats r).isSome)).map areacutOf :=
      List.mem_map_of_mem areacutOf hr0f
    have hpos : ∀ x ∈ (rows.filter
        (fun r => !(cuttypeCol cats r).isSome)).map areacutOf, 0 ≤ x := by
      intro x hx
      rw [List.mem_map] at hx
      obtain ⟨r, hr, rfl⟩ := hx
      exact hnn r (List.mem_filter.mp hr).1
    exact lt_of_lt_of_le ha0 (List.single_le_sum hpos _ hmem)
  have hnnle : 0 ≤ nonNullArea cats rows := by
    refine List.sum_nonneg ?_
    intro x hx
    rw [List.mem_map] at hx
    obtain ⟨r, hr, rfl⟩ := hx
    exact hnn r (List.mem_filter.mp hr).1
  have hsplit := total_split cats rows
  have hlt : nonNullArea cats rows < total_area rows := by
    rw [hsplit]
    linarith
  have hTpos : 0 < total_area rows := lt_of_le_of_lt hnnle hlt
  rw [hraw, show nonNullArea cats rows * (100 / total_area rows)
      = nonNullArea cats rows * 100 / total_area rows from by ring,
    div_lt_iff₀ hTpos]
  linarith

/-! ### Concrete aggregator fixtures for C3 -/

def rec3A : Record :=
  { exercice := none, origine := none, an_origine := none, perturb := some "A",
    an_perturb := none, reb_ess1 := none, reb_ess2 := none, reb_ess3 := none,
    cl_age := some "Even", gr_ess := some "Tol", co_ter := none,
    fragGeom := Geom.poly 4 }

def rec3B : Record :=
  { exercice := none, origine := none, an_origine := none, perturb := some "B",
    an_perturb := none, reb_ess1 := none, reb_ess2 := none, reb_ess3 := none,
    cl_age := some "Even", gr_ess := some "Tol", co_ter := none,
    fragGeom := Geom.poly 6 }

def rec3C : Record :=
  { exercice := none, origine := none, an_origine := none, perturb := some "C",
    an_perturb := none, reb_ess1 := none, reb_ess2 := none, reb_ess3 := none,
    cl_age := some "Uneven", gr_ess := some "Tol", co_ter := none,
    fragGeom := Geom.poly 99990 }

def rows3 : List Record := [rec3A, rec3B, rec3C]

theorem rows3_cellA : cellArea [] rows3 "A" "Even/Tol" = 4 := by
  norm_num +decide [cellArea, rows3, rec3A, rec3B, rec3C, cuttypeCol, cuttypeFinal,
    chooseCut, reclassify_cuttype, forestTypeCol, classify_forest_type,
    areacutOf, garea, List.filter_cons]

theorem rows3_cellB : cellArea [] rows3 "B" "Even/Tol" = 6 := by
  norm_num +decide [cellArea, rows3, rec3A, rec3B, rec3C, cuttypeCol, cuttypeFinal,
    chooseCut, reclassify_cuttype, forestTypeCol, classify_forest_type,
    areacutOf, garea, List.filter_cons]

theorem rows3_cellC : cellArea [] rows3 "C" "Even/Tol" = 0 := by
  norm_num +decide [cellArea, rows3, rec3A, rec3B, rec3C, cuttypeCol, cuttypeFinal,
    chooseCut, reclassify_cuttype, forestTypeCol, classify_forest_type,
    areacutOf, garea, List.filter_cons]

theorem rows3_total : total_area rows3 = 100000 := by
  norm_num [total_area, rows3, rec3A, rec3B, rec3C, areacutOf, garea]

theorem rows3_keys : probRowKeys [] rows3 = ["A", "B", "C"] := by decide

theorem rows3_fromPctA : matrixFromPct [] rows3 "A" "Even/Tol" = 0 := by
  rw [matrixFromPct, matrix_pct, rows3_cellA, rows3_total, round2, round_eq]
  norm_num

theorem rows3_fromPctB : matrixFromPct [] rows3 "B" "Even/Tol" = 10 := by
  rw [matrixFromPct, matrix_pct, rows3_cellB, rows3_total, round2, round_eq]
  norm_num

theorem rows3_fromPctC : matrixFromPct [] rows3 "C" "Even/Tol" = 0 := by
  rw [matrixFromPct, matrix_pct, rows3_cellC, rows3_total, round2, round_eq]
  norm_num

theorem rows3_colSum : colSumFiltered [] rows3 "Even/Tol" = 10 := by
  rw [colSumFiltered, rows3_keys]
  simp only [List.map_cons, List.map_nil, List.sum_cons, List.sum_nil]
  rw [rows3_fromPctA, rows3_fromPctB, rows3_fromPctC]
  norm_num

/-- C3 counterexample: on `rows3` the implementation's probability for
("A", Even/Tol) is 0 — the 2-decimal percentage rounding wiped cell A out
before normalization — while the column-rescaled area matrix described by the
claim gives 2/5; the difference (2/5) is far beyond rounding tolerance, so
the probability matrix does not equal the rescaled area matrix. -/
theorem C3_counterexample :
    matrix_prob [] rows3 "A" "Even/Tol" = 0 ∧
    specProbMatrix [] rows3 "A" "Even/Tol" = 2 / 5 ∧
    |matrix_prob [] rows3 "A" "Even/Tol"
      - specProbMatrix [] rows3 "A" "Even/Tol"| = 2 / 5 := by
  have h1 : matrix_prob [] rows3 "A" "Even/Tol" = 0 := by
    rw [matrix_prob, rows3_fromPctA, rows3_colSum, pandasDiv,
      if_neg (by norm_num : ¬ (10 : ℚ) = 0)]
    show round4 (0 / 10) = 0
    rw [round4, round_eq]
    norm_num
  have h2 : specProbMatrix [] rows3 "A" "Even/Tol" = 2 / 5 := by
    rw [specProbMatrix]
    simp only [rows3_keys, List.map_cons, List.map_nil, List.sum_cons, List.sum_nil]
    rw [rows3_cellA, rows3_cellB, rows3_cellC]
    norm_num
  refine ⟨h1, h2, ?_⟩
  rw [h1, h2]
  norm_num

/-- C3 witness for the amended theorem: the Even/Tol column of `rows3` has a
non-zero filtered sum, and its probability entries sum to 1 within the
4-decimal rounding tolerance. -/
theorem C3_prob_matrix_witness :
    ("Even/Tol" ∈ probCols) ∧
    (colSumFiltered [] rows3 "Even/Tol" ≠ 0) ∧
    |((probRowKeys [] rows3).map
        (fun ct => matrix_prob [] rows3 ct "Even/Tol")).sum - 1|
      ≤ ((probRowKeys [] rows3).length : ℚ) * (1 / 20000) := by
  refine ⟨by decide, ?_, ?_⟩
  · rw [rows3_colSum]
    norm_num
  · exact ((C3_prob_matrix [] rows3 "Even/Tol" (by decide)).2
      (by rw [rows3_colSum]; norm_num)).2

/-! ### Concrete aggregator fixtures for C10 -/

def recN10 : Record :=
  { exercice := none, origine := none, an_origine := none, perturb := none,
    an_perturb := none, reb_ess1 := none, reb_ess2 := none, reb_ess3 := none,
    cl_age := some "Even", gr_ess := some "Tol", co_ter := none,
    fragGeom := Geom.poly 1 }

def recA10 : Record :=
  { exercice := none, origine := none, an_origine := none, perturb := some "A",
    an_perturb := none, reb_ess1 := none, reb_ess2 := none, reb_ess3 := none,
    cl_age := some "Even", gr_ess := some "Tol", co_ter := none,
    fragGeom := Geom.poly 999999 }

def rows10 : List Record := [recN10, recA10]

theorem rows10_keys : rowKeys [] rows10 = ["A"] := by decide

theorem rows10_total : total_area rows10 = 1000000 := by
  norm_num [total_area, rows10, recN10, recA10, areacutOf, garea]

theorem rows10_cutN : cuttypeCol [] recN10 = none := rfl

theorem rows10_cutA : cuttypeCol [] recA10 = some "A" := by decide

theorem rows10_cell (ft : String) :
    cellArea [] rows10 "A" ft = if forestTypeCol recA10 = ft then 999999 else 0 := by
  by_cases h : forestTypeCol recA10 = ft
  · rw [if_pos h]
    rw [cellArea]
    rw [show rows10.filter (fun r => decide (cuttypeCol [] r = some "A") &&
        decide (forestTypeCol r = ft)) = [recA10] from by
      simp [rows10, List.filter_cons, rows10_cutN, rows10_cutA, h]]
    norm_num [areacutOf, recA10, garea]
  · rw [if_neg h]
    rw [cellArea]
    rw [show rows10.filter (fun r => decide (cuttypeCol [] r = some "A") &&
        decide (forestTypeCol r = ft)) = [] from by
      simp [rows10, List.filter_cons, rows10_cutN, rows10_cutA, h]]
    rfl

theorem rows10_ftA : forestTypeCol recA10 = "Even/Tol" := by decide

theorem rows10_pct_ET : matrix_pct [] rows10 "A" "Even/Tol" = 100 := by
  rw [matrix_pct, rows10_cell, rows10_ftA, if_pos rfl, rows10_total, round2, round_eq]
  norm_num

theorem rows10_pct_other (ft : String) (h : ft ≠ "Even/Tol") :
    matrix_pct [] rows10 "A" ft = 0 := by
  rw [matrix_pct, rows10_cell, rows10_ftA, if_neg (fun hh => h hh.symm),
    rows10_total, round2, round_eq]
  norm_num

/-- C10 counterexample: `rows10` has a positive-area fragment with both codes
null (so a null CutType), yet the cells of the exported percentage matrix —
rounded to 2 decimals as the script does — sum to exactly 100, not strictly
less: the lone non-null cell 99.9999% rounds up to 100.00. -/
theorem C10_counterexample :
    (recN10 ∈ rows10 ∧ recN10.perturb = none ∧ recN10.origine = none ∧
      cuttypeCol [] recN10 = none ∧ 0 < areacutOf recN10) ∧
    pctCellsSum [] rows10 = 100 := by
  constructor
  · refine ⟨by decide, rfl, rfl, rfl, ?_⟩
    norm_num [areacutOf, recN10, garea]
  · rw [pctCellsSum, rows10_keys]
    simp only [List.map_cons, List.map_nil, List.sum_cons, List.sum_nil, forest_types]
    rw [rows10_pct_ET, rows10_pct_other "Uneven/Tol" (by decide),
      rows10_pct_other "Even/Intol" (by decide),
      rows10_pct_other "Uneven/Intol" (by decide),
      rows10_pct_other "Unknown/Unclassified" (by decide)]
    norm_num

/-- C10 witness for the amended theorem: on `rows10` the hypotheses hold and
the unrounded percentage cells sum to strictly less than 100. -/
theorem C10_null_cuttype_witness :
    (∀ r ∈ rows10, 0 ≤ areacutOf r) ∧
    (∃ r ∈ rows10, cuttypeCol [] r = none ∧ 0 < areacutOf r) ∧
    pctCellsSumRaw [] rows10 < 100 := by
  have hnn : ∀ r ∈ rows10, 0 ≤ areacutOf r := by
    intro r hr
    rcases List.mem_cons.mp hr with rfl | hr
    · norm_num [areacutOf, recN10, garea]
    · rcases List.mem_cons.mp hr with rfl | hr
      · norm_num [areacutOf, recA10, garea]
      · cases hr
  have hex : ∃ r ∈ rows10, cuttypeCol [] r = none ∧ 0 < areacutOf r := by
    refine ⟨recN10, by decide, rfl, ?_⟩
    norm_num [areacutOf, recN10, garea]
  exact ⟨hnn, hex, (C10_null_cuttype [] rows10 hnn hex).2.2⟩
